import Mathlib

/-!
Verification of the aiographite client (src/aiographite/aiographitesend.py)
against its natural-language specification.

The development shallowly embeds the two wire encoders (the plaintext protocol
and the pickle protocol, including a byte-level model of Python's
pickle.dumps at protocol 2 restricted to the data shape the client produces,
namely lists of (str, (int, int)) tuples) and the AIOGraphite session object
with its send/disconnect operations.  Machine integers are modelled as Nat/Int
with explicit reductions modulo 2^w; bytes are Nat values below 256; fallible
Python code is modelled with Option/Except-style results.
-/

/-! ## Byte-level helpers: fixed-width little/big-endian integers -/

/-- The little-endian byte list (length `k`) of the low `8*k` bits of `v`.
Models Python's struct.pack for fixed widths and int.to_bytes (little). -/
def natToLE : Nat → Nat → List Nat
  | 0, _ => []
  | k + 1, v => v % 256 :: natToLE k (v / 256)

/-- Value of a little-endian byte list. -/
def leVal : List Nat → Nat
  | [] => 0
  | b :: bs => b + 256 * leVal bs

/-- The big-endian byte list (length `k`) of the low `8*k` bits of `v`.
Models struct.pack with format character greater-than/bang (network order). -/
def natToBE (k v : Nat) : List Nat := (natToLE k v).reverse

/-- Value of a big-endian byte list. -/
def beVal (bs : List Nat) : Nat := leVal bs.reverse

theorem natToLE_length (k v : Nat) : (natToLE k v).length = k := by
  induction k generalizing v with
  | zero => rfl
  | succ k ih => simp [natToLE, ih]

/-- Decomposition of a mod by a product: the low part and the next digit. -/
theorem nat_mod_mul_decomp (v a b : Nat) :
    v % (a * b) = a * (v / a % b) + v % a := by
  conv_lhs => rw [← Nat.div_add_mod (v % (a * b)) a]
  rw [Nat.mod_mul_right_div_self, Nat.mod_mod_of_dvd v ⟨b, rfl⟩]

theorem leVal_natToLE (k v : Nat) : leVal (natToLE k v) = v % 2 ^ (8 * k) := by
  induction k generalizing v with
  | zero => simp [natToLE, leVal, Nat.mod_one]
  | succ k ih =>
    have hpow : 2 ^ (8 * (k + 1)) = 256 * 2 ^ (8 * k) := by
      rw [Nat.mul_succ, Nat.pow_add]; ring
    have hd := nat_mod_mul_decomp v 256 (2 ^ (8 * k))
    simp only [natToLE, leVal, ih, hpow]
    omega

theorem beVal_natToBE (k v : Nat) : beVal (natToBE k v) = v % 2 ^ (8 * k) := by
  simp [beVal, natToBE, leVal_natToLE]

theorem natToBE_length (k v : Nat) : (natToBE k v).length = k := by
  simp [natToBE, natToLE_length]

theorem natToLE_dropLast (k v : Nat) : (natToLE (k + 1) v).dropLast = natToLE k v := by
  induction k generalizing v with
  | zero => simp [natToLE]
  | succ k ih =>
    have h : natToLE (k + 1 + 1) v = v % 256 :: natToLE (k + 1) (v / 256) := rfl
    rw [h, List.dropLast_cons_of_ne_nil]
    · rw [ih]; rfl
    · have := natToLE_length (k + 1) (v / 256)
      intro hnil; rw [hnil] at this; simp at this

theorem div256_div_pow (v k : Nat) : v / 256 / 2 ^ (8 * k) = v / 2 ^ (8 * (k + 1)) := by
  rw [Nat.div_div_eq_div_mul]
  congr 1
  have he : 8 * (k + 1) = 8 * k + 8 := by ring
  rw [he, Nat.pow_add]; ring

theorem natToLE_getLast (k v : Nat) (hk : 0 < k) :
    (natToLE k v).getLast? = some (v / 2 ^ (8 * (k - 1)) % 256) := by
  induction k generalizing v with
  | zero => omega
  | succ k ih =>
    match k with
    | 0 => simp [natToLE]
    | k + 1 =>
      have h : natToLE (k + 1 + 1) v = v % 256 :: natToLE (k + 1) (v / 256) := rfl
      have h2 : natToLE (k + 1) (v / 256)
          = v / 256 % 256 :: natToLE k (v / 256 / 256) := rfl
      rw [h, h2, List.getLast?_cons_cons, ← h2, ih (v / 256) (by omega)]
      have h3 := div256_div_pow v k
      simp only [Nat.add_sub_cancel] at *
      rw [h3]

theorem natToLE_getD (k v j : Nat) (hj : j < k) :
    (natToLE k v).getD j 0 = v / 2 ^ (8 * j) % 256 := by
  induction k generalizing v j with
  | zero => omega
  | succ k ih =>
    match j with
    | 0 => simp [natToLE, Nat.mul_zero, Nat.pow_zero, Nat.div_one]
    | j + 1 =>
      have h : natToLE (k + 1) v = v % 256 :: natToLE k (v / 256) := rfl
      rw [h, List.getD_cons_succ, ih (v / 256) j (by omega), div256_div_pow]

/-! ## pickle's long (arbitrary-precision integer) encoding

Models pickle.encode_long / pickle.decode_long from Python's standard
library, which the repository's PickleProtocol relies on through
pickle.dumps(..., protocol=2) for integers outside the 32-bit range. -/

/-- pickle.encode_long: for nonzero x, the little-endian two's-complement
representation of x in (x.bit_length() >> 3) + 1 bytes (int.to_bytes with
signed=True, which always fits for this byte count, hence the plain mod),
followed by the redundant-sign-byte strip; b'' for 0.  Python's bit_length
is Nat.size. -/
def encodeLong (x : Int) : List Nat :=
  if x = 0 then []
  else
    let nbytes := x.natAbs.size / 8 + 1
    let raw := natToLE nbytes (x % ((2 ^ (8 * nbytes) : Nat) : Int)).toNat
    if x < 0 ∧ 1 < nbytes ∧ raw.getLast? = some 255 ∧
        Nat.testBit (raw.getD (nbytes - 2) 0) 7 = true
    then raw.dropLast
    else raw

/-- pickle.decode_long: int.from_bytes(data, byteorder='little', signed=True);
0 for the empty byte string (the n < 2^(8*0-1) test holds vacuously there by
truncated subtraction). -/
def decodeLong (bs : List Nat) : Int :=
  let n := leVal bs
  if n < 2 ^ (8 * bs.length - 1) then (n : Int)
  else (n : Int) - ((2 ^ (8 * bs.length) : Nat) : Int)

/-- Helper: decoding a full-width little-endian two's-complement block
recovers any integer in the signed range of that width. -/
theorem decodeLong_natToLE (k : Nat) (x : Int) (hk : 0 < k)
    (hlo : -((2 ^ (8 * k - 1) : Nat) : Int) ≤ x)
    (hhi : x < ((2 ^ (8 * k - 1) : Nat) : Int)) :
    decodeLong (natToLE k (x % ((2 ^ (8 * k) : Nat) : Int)).toNat) = x := by
  have hpow : (2 ^ (8 * k) : Nat) = 2 * 2 ^ (8 * k - 1) := by
    rw [show 8 * k = 1 + (8 * k - 1) by omega, Nat.pow_add]
    norm_num
  have hhp : (0 : Nat) < 2 ^ (8 * k - 1) := Nat.pos_pow_of_pos _ (by norm_num)
  set v := (x % ((2 ^ (8 * k) : Nat) : Int)).toNat with hvdef
  have hvx : (v : Int) = x ∨ (v : Int) = x + ((2 ^ (8 * k) : Nat) : Int) := by
    by_cases h0 : 0 ≤ x
    · left
      rw [hvdef, Int.emod_eq_of_lt h0 (by omega), Int.toNat_of_nonneg h0]
    · right
      have heq : (x + ((2 ^ (8 * k) : Nat) : Int)) % ((2 ^ (8 * k) : Nat) : Int)
          = x % ((2 ^ (8 * k) : Nat) : Int) := by
        have h := @Int.add_mul_emod_self_left x ((2 ^ (8 * k) : Nat) : Int) 1
        simp only [Int.mul_one] at h
        exact h
      rw [hvdef, ← heq, Int.emod_eq_of_lt (by omega) (by omega),
        Int.toNat_of_nonneg (by omega)]
  have hmod : v % 2 ^ (8 * k) = v := Nat.mod_eq_of_lt (by omega)
  simp only [decodeLong, natToLE_length, leVal_natToLE, hmod]
  rcases hvx with h | h
  · rw [if_pos (by omega)]
    omega
  · rw [if_neg (by omega)]
    omega

/-- Round trip for pickle's arbitrary-precision integer encoding. -/
theorem decodeLong_encodeLong (x : Int) : decodeLong (encodeLong x) = x := by
  by_cases hx0 : x = 0
  · subst hx0
    norm_num [encodeLong, decodeLong, leVal]
  · have hm1 : 1 ≤ x.natAbs := by omega
    have hs1 : 1 ≤ x.natAbs.size := Nat.size_pos.mpr hm1
    simp only [encodeLong]
    rw [if_neg hx0]
    set s := x.natAbs.size with hsdef
    set nb := s / 8 + 1 with hnbdef
    set v := (x % ((2 ^ (8 * nb) : Nat) : Int)).toNat with hvdef
    clear_value v
    have hsle : s ≤ 8 * nb - 1 := by omega
    have hmlt : x.natAbs < 2 ^ s := Nat.lt_size_self _
    have hhalf : x.natAbs < 2 ^ (8 * nb - 1) :=
      lt_of_lt_of_le hmlt (Nat.pow_le_pow_right (by norm_num) hsle)
    have hlo : -((2 ^ (8 * nb - 1) : Nat) : Int) ≤ x := by omega
    have hhi : x < ((2 ^ (8 * nb - 1) : Nat) : Int) := by omega
    by_cases hstrip : x < 0 ∧ 1 < nb ∧ (natToLE nb v).getLast? = some 255 ∧
        Nat.testBit ((natToLE nb v).getD (nb - 2) 0) 7 = true
    · rw [if_pos hstrip]
      obtain ⟨hneg, hnb2, hlast, hbit⟩ := hstrip
      have hBA : (2 ^ (8 * nb) : Nat) = 2 * 2 ^ (8 * nb - 1) := by
        rw [show 8 * nb = 1 + (8 * nb - 1) by omega, Nat.pow_add]; norm_num
      have hv2 : (v : Int) = x + ((2 ^ (8 * nb) : Nat) : Int) := by
        have heq : (x + ((2 ^ (8 * nb) : Nat) : Int)) % ((2 ^ (8 * nb) : Nat) : Int)
            = x % ((2 ^ (8 * nb) : Nat) : Int) := by
          have h := @Int.add_mul_emod_self_left x ((2 ^ (8 * nb) : Nat) : Int) 1
          simp only [Int.mul_one] at h
          exact h
        rw [hvdef, ← heq, Int.emod_eq_of_lt (by omega) (by omega),
          Int.toNat_of_nonneg (by omega)]
      have hKp : (2 ^ (8 * (nb - 1)) : Nat) = 256 * 2 ^ (8 * (nb - 2)) := by
        rw [show 8 * (nb - 1) = 8 + 8 * (nb - 2) by omega, Nat.pow_add]
      have hBK : (2 ^ (8 * nb) : Nat) = 256 * 2 ^ (8 * (nb - 1)) := by
        rw [show 8 * nb = 8 + 8 * (nb - 1) by omega, Nat.pow_add]
      have hKhalf : (2 ^ (8 * (nb - 1) - 1) : Nat) = 128 * 2 ^ (8 * (nb - 2)) := by
        rw [show 8 * (nb - 1) - 1 = 7 + 8 * (nb - 2) by omega, Nat.pow_add]
      have hKpos : (0 : Nat) < 2 ^ (8 * (nb - 1)) := Nat.pos_pow_of_pos _ (by norm_num)
      have hppos : (0 : Nat) < 2 ^ (8 * (nb - 2)) := Nat.pos_pow_of_pos _ (by norm_num)
      -- extract the top-byte condition
      have hgl := natToLE_getLast nb v (by omega)
      rw [hgl] at hlast
      have htop : v / 2 ^ (8 * (nb - 1)) % 256 = 255 := Option.some.inj hlast
      have hvltB : v < 2 ^ (8 * nb) := by omega
      have hdivlt : v / 2 ^ (8 * (nb - 1)) < 256 :=
        Nat.div_lt_of_lt_mul (by omega)
      have htopval : v / 2 ^ (8 * (nb - 1)) = 255 := by
        have := Nat.mod_eq_of_lt hdivlt
        omega
      have hvmk := Nat.div_add_mod v (2 ^ (8 * (nb - 1)))
      rw [htopval] at hvmk
      -- extract the second-byte condition
      have hgd : (natToLE nb v).getD (nb - 2) 0 = v / 2 ^ (8 * (nb - 2)) % 256 :=
        natToLE_getD nb v (nb - 2) (by omega)
      rw [hgd] at hbit
      have hb2 : 128 ≤ v / 2 ^ (8 * (nb - 2)) % 256 := by
        rw [Nat.testBit_to_div_mod] at hbit
        simp only [decide_eq_true_eq] at hbit
        norm_num at hbit
        omega
      have hb2lt : v / 2 ^ (8 * (nb - 2)) % 256 < 256 := Nat.mod_lt _ (by norm_num)
      have hvplt : v % 2 ^ (8 * (nb - 2)) < 2 ^ (8 * (nb - 2)) := Nat.mod_lt _ hppos
      have hdecomp := nat_mod_mul_decomp v (2 ^ (8 * (nb - 2))) 256
      rw [show (2 ^ (8 * (nb - 2)) : Nat) * 256 = 2 ^ (8 * (nb - 1)) by
        rw [hKp]; ring] at hdecomp
      have hvKlt : v % 2 ^ (8 * (nb - 1)) < 2 ^ (8 * (nb - 1)) := Nat.mod_lt _ hKpos
      have hmul : 128 * 2 ^ (8 * (nb - 2))
          ≤ 2 ^ (8 * (nb - 2)) * (v / 2 ^ (8 * (nb - 2)) % 256) := by
        rw [Nat.mul_comm]
        exact Nat.mul_le_mul_left _ hb2
      -- decode the stripped block
      have hdl : (natToLE nb v).dropLast = natToLE (nb - 1) v := by
        conv_lhs => rw [show nb = nb - 1 + 1 by omega]
        exact natToLE_dropLast (nb - 1) v
      rw [hdl]
      simp only [decodeLong, natToLE_length, leVal_natToLE]
      rw [if_neg (by omega)]
      omega
    · rw [if_neg hstrip]
      rw [hvdef]
      exact decodeLong_natToLE nb x (by omega) hlo hhi

/-! ## UTF-8, as used by str.encode('utf-8') inside pickle's string saving -/

/-- UTF-8 encoding of one Unicode scalar value (Python str characters can
hold no unpaired surrogates in normal operation, matching Lean's Char). -/
def utf8EncodeChar (c : Char) : List Nat :=
  let n := c.toNat
  if n < 0x80 then [n]
  else if n < 0x800 then [0xC0 + n / 64, 0x80 + n % 64]
  else if n < 0x10000 then [0xE0 + n / 4096, 0x80 + n / 64 % 64, 0x80 + n % 64]
  else [0xF0 + n / 262144, 0x80 + n / 4096 % 64, 0x80 + n / 64 % 64, 0x80 + n % 64]

/-- UTF-8 encoding of a whole string. -/
def utf8Encode (s : String) : List Nat := (s.data.map utf8EncodeChar).flatten

/-- Decode one UTF-8 sequence from the front, returning the code point and
the remaining bytes. -/
def utf8DecodeChar (bs : List Nat) : Option (Nat × List Nat) :=
  match bs with
  | [] => none
  | b0 :: r =>
    if b0 < 0x80 then some (b0, r)
    else if b0 < 0xC2 then none
    else if b0 < 0xE0 then
      match r with
      | b1 :: r1 =>
        if 0x80 ≤ b1 ∧ b1 < 0xC0 then some ((b0 - 0xC0) * 64 + (b1 - 0x80), r1)
        else none
      | [] => none
    else if b0 < 0xF0 then
      match r with
      | b1 :: b2 :: r2 =>
        if (0x80 ≤ b1 ∧ b1 < 0xC0) ∧ (0x80 ≤ b2 ∧ b2 < 0xC0) then
          some ((b0 - 0xE0) * 4096 + (b1 - 0x80) * 64 + (b2 - 0x80), r2)
        else none
      | _ => none
    else if b0 < 0xF5 then
      match r with
      | b1 :: b2 :: b3 :: r3 =>
        if (0x80 ≤ b1 ∧ b1 < 0xC0) ∧ (0x80 ≤ b2 ∧ b2 < 0xC0) ∧
            (0x80 ≤ b3 ∧ b3 < 0xC0) then
          some ((b0 - 0xF0) * 262144 + (b1 - 0x80) * 4096 + (b2 - 0x80) * 64
            + (b3 - 0x80), r3)
        else none
      | _ => none
    else none

/-- Fuel-driven decoding loop (fuel bounds the number of characters; one
byte per character is consumed at least, so the byte count is enough fuel). -/
def utf8DecodeAux : Nat → List Nat → List Char → Option (List Char)
  | fuel, bs, acc =>
    if bs.isEmpty then some acc.reverse
    else
      match fuel with
      | 0 => none
      | f + 1 =>
        match utf8DecodeChar bs with
        | some (n, rest) =>
          if n < 0xD800 ∨ (0xDFFF < n ∧ n < 0x110000) then
            utf8DecodeAux f rest (Char.ofNat n :: acc)
          else none
        | none => none

/-- Decode a UTF-8 byte list to a string (the accepting paths of Python's
bytes.decode('utf-8')). -/
def utf8Decode (bs : List Nat) : Option String :=
  match utf8DecodeAux bs.length bs [] with
  | some cs => some (String.mk cs)
  | none => none

theorem char_toNat_valid (c : Char) :
    c.toNat < 0xD800 ∨ (0xDFFF < c.toNat ∧ c.toNat < 0x110000) := by
  have h := c.valid
  simp only [UInt32.isValidChar, Nat.isValidChar] at h
  exact h

theorem utf8EncodeChar_length_pos (c : Char) : 1 ≤ (utf8EncodeChar c).length := by
  simp only [utf8EncodeChar]
  split_ifs <;> simp

/-- Decoding one encoded character from the front of a stream succeeds and
consumes exactly its bytes. -/
theorem utf8DecodeChar_encodeChar (c : Char) (rest : List Nat) :
    utf8DecodeChar (utf8EncodeChar c ++ rest) = some (c.toNat, rest) := by
  have hval := char_toNat_valid c
  have hlt : c.toNat < 0x110000 := by omega
  simp only [utf8EncodeChar]
  by_cases h1 : c.toNat < 0x80
  · rw [if_pos h1]
    simp only [List.cons_append, List.nil_append, utf8DecodeChar]
    rw [if_pos h1]
  · rw [if_neg h1]
    by_cases h2 : c.toNat < 0x800
    · rw [if_pos h2]
      simp only [List.cons_append, List.nil_append, utf8DecodeChar]
      rw [if_neg (by omega), if_neg (by omega), if_pos (by omega),
        if_pos (by constructor <;> omega)]
      simp only [Option.some.injEq, Prod.mk.injEq]
      exact ⟨by omega, trivial⟩
    · rw [if_neg h2]
      by_cases h3 : c.toNat < 0x10000
      · rw [if_pos h3]
        simp only [List.cons_append, List.nil_append, utf8DecodeChar]
        rw [if_neg (by omega), if_neg (by omega), if_neg (by omega),
          if_pos (by omega), if_pos (by refine ⟨⟨?_, ?_⟩, ?_, ?_⟩ <;> omega)]
        simp only [Option.some.injEq, Prod.mk.injEq]
        exact ⟨by omega, trivial⟩
      · rw [if_neg h3]
        simp only [List.cons_append, List.nil_append, utf8DecodeChar]
        rw [if_neg (by omega), if_neg (by omega), if_neg (by omega),
          if_neg (by omega), if_pos (by omega),
          if_pos (by refine ⟨⟨?_, ?_⟩, ⟨?_, ?_⟩, ?_, ?_⟩ <;> omega)]
        simp only [Option.some.injEq, Prod.mk.injEq]
        exact ⟨by omega, trivial⟩

/-- Decoding the concatenated encoding of a character list succeeds given at
least one unit of fuel per encoded byte. -/
theorem utf8DecodeAux_encode (cs : List Char) : ∀ fuel acc,
    ((cs.map utf8EncodeChar).flatten).length ≤ fuel →
    utf8DecodeAux fuel ((cs.map utf8EncodeChar).flatten) acc
      = some (acc.reverse ++ cs) := by
  induction cs with
  | nil =>
    intro fuel acc h
    rw [utf8DecodeAux.eq_def]
    simp
  | cons c cs ih =>
    intro fuel acc h
    have hb : ((c :: cs).map utf8EncodeChar).flatten
        = utf8EncodeChar c ++ (cs.map utf8EncodeChar).flatten := by simp
    rw [hb] at h ⊢
    have hpos := utf8EncodeChar_length_pos c
    have hlen : (utf8EncodeChar c ++ (cs.map utf8EncodeChar).flatten).length
        = (utf8EncodeChar c).length + ((cs.map utf8EncodeChar).flatten).length := by
      simp
    have hne : (utf8EncodeChar c ++ (cs.map utf8EncodeChar).flatten).isEmpty
        = false := by
      cases hQ : utf8EncodeChar c with
      | nil => rw [hQ] at hpos; simp at hpos
      | cons a t => simp [hQ]
    cases fuel with
    | zero => omega
    | succ f =>
      rw [utf8DecodeAux.eq_def]
      dsimp only
      rw [hne]
      simp only [Bool.false_eq_true, if_false]
      rw [utf8DecodeChar_encodeChar]
      dsimp only
      rw [if_pos (char_toNat_valid c), Char.ofNat_toNat]
      rw [ih f (c :: acc) (by omega)]
      simp

/-- UTF-8 round trip on whole strings. -/
theorem utf8Decode_utf8Encode (s : String) : utf8Decode (utf8Encode s) = some s := by
  unfold utf8Decode utf8Encode
  rw [utf8DecodeAux_encode s.data _ [] (le_refl _)]
  simp

/-! ## pickle protocol 2, restricted to the client's data shape

PickleProtocol.generate_message_function calls
pickle.dumps(listOfMetricTuples, protocol=2) on a list of
(metric, (timestamp, value)) tuples; the following models that byte stream
opcode by opcode. -/

/-- The structured unit PickleProtocol.data_formate_function produces:
(metric, (timestamp, value)). -/
abbrev MetricTuple := String × (Int × Int)

/-- Case split for a two's-complement load: the stored unsigned cell holds
either x itself or x plus the modulus. -/
theorem emod_toNat_cases (x : Int) (M : Nat) (hlo : -(M : Int) ≤ x)
    (hhi : x < (M : Int)) :
    ((x % (M : Int)).toNat : Int) = x ∨ ((x % (M : Int)).toNat : Int) = x + M := by
  by_cases h0 : 0 ≤ x
  · left
    rw [Int.emod_eq_of_lt h0 hhi, Int.toNat_of_nonneg h0]
  · right
    have heq : (x + (M : Int)) % (M : Int) = x % (M : Int) := by
      have h := @Int.add_mul_emod_self_left x (M : Int) 1
      simp only [Int.mul_one] at h
      exact h
    rw [← heq, Int.emod_eq_of_lt (by omega) (by omega),
      Int.toNat_of_nonneg (by omega)]

/-- pickle's save_long in bin mode at protocol 2: BININT1 (K) and BININT2 (M)
for small nonnegative ints, BININT (J, 4-byte signed little-endian) for the
rest of the 32-bit signed range, otherwise LONG1/LONG4 over encode_long;
none models the struct.error on an unencodable length (unreachable for any
realizable value). -/
def serInt (x : Int) : Option (List Nat) :=
  if 0 ≤ x ∧ x ≤ 0xFF then some [0x4B, x.toNat]
  else if 0 ≤ x ∧ x ≤ 0xFFFF then some [0x4D, x.toNat % 256, x.toNat / 256]
  else if -0x80000000 ≤ x ∧ x ≤ 0x7FFFFFFF then
    some (0x4A :: natToLE 4 (x % ((2 ^ 32 : Nat) : Int)).toNat)
  else
    let e := encodeLong x
    if e.length < 256 then some (0x8A :: e.length :: e)
    else if e.length < 0x80000000 then some (0x8B :: (natToLE 4 e.length ++ e))
    else none

/-- Pickler.put at protocol 2: BINPUT (q) for memo indexes below 256,
LONG_BINPUT (r, 4-byte little-endian) otherwise; none models the struct.error
past 2^32 memo entries. -/
def binput (k : Nat) : Option (List Nat) :=
  if k < 256 then some [0x71, k]
  else if k < 2 ^ 32 then some (0x72 :: natToLE 4 k)
  else none

/-- pickle's save_str at protocol 2: BINUNICODE (X), a 4-byte little-endian
length field and the UTF-8 bytes; none models the struct.error when the
length does not fit the field. -/
def serStr (s : String) : Option (List Nat) :=
  let e := utf8Encode s
  if e.length < 2 ^ 32 then some (0x58 :: (natToLE 4 e.length ++ e)) else none

/-- Decoder for the two memo-put opcodes (the memo itself is irrelevant to
the decoded value because the encoder never emits GET opcodes). -/
def parsePut (bs : List Nat) : Option (List Nat) :=
  match bs with
  | op :: r =>
    if op = 0x71 then
      match r with
      | _ :: rest => some rest
      | [] => none
    else if op = 0x72 then
      match r with
      | _ :: _ :: _ :: _ :: rest => some rest
      | _ => none
    else none
  | [] => none

/-- Decoder for the five integer opcodes the encoder can emit. -/
def parseInt (bs : List Nat) : Option (Int × List Nat) :=
  match bs with
  | [] => none
  | op :: r =>
    if op = 0x4B then
      match r with
      | a :: rest => some ((a : Int), rest)
      | [] => none
    else if op = 0x4D then
      match r with
      | a :: b :: rest => some (((a + 256 * b : Nat) : Int), rest)
      | _ => none
    else if op = 0x4A then
      match r with
      | a :: b :: c :: d :: rest =>
        let n := a + 256 * b + 65536 * c + 16777216 * d
        some (if n < 0x80000000 then (n : Int) else (n : Int) - 0x100000000, rest)
      | _ => none
    else if op = 0x8A then
      match r with
      | n :: rest =>
        if n ≤ rest.length then some (decodeLong (rest.take n), rest.drop n)
        else none
      | [] => none
    else if op = 0x8B then
      match r with
      | a :: b :: c :: d :: rest =>
        let n := a + 256 * b + 65536 * c + 16777216 * d
        if n ≤ rest.length then some (decodeLong (rest.take n), rest.drop n)
        else none
      | _ => none
    else none

/-- Decoder for BINUNICODE. -/
def parseStr (bs : List Nat) : Option (String × List Nat) :=
  match bs with
  | op :: a :: b :: c :: d :: rest =>
    if op = 0x58 then
      let n := a + 256 * b + 65536 * c + 16777216 * d
      if n ≤ rest.length then
        match utf8Decode (rest.take n) with
        | some s => some (s, rest.drop n)
        | none => none
      else none
    else none
  | _ => none

/-- Expect one fixed opcode byte. -/
def expectByte (b : Nat) (bs : List Nat) : Option (List Nat) :=
  match bs with
  | x :: rest => if x = b then some rest else none
  | [] => none

theorem natToLE4_cons (v : Nat) : natToLE 4 v
    = v % 256 :: v / 256 % 256 :: v / 256 / 256 % 256
      :: v / 256 / 256 / 256 % 256 :: [] := rfl

theorem parsePut_binput (k : Nat) (b rest : List Nat) (h : binput k = some b) :
    parsePut (b ++ rest) = some rest := by
  unfold binput at h
  by_cases h1 : k < 256
  · rw [if_pos h1] at h
    obtain rfl : b = [0x71, k] := (Option.some.inj h).symm
    simp [parsePut]
  · rw [if_neg h1] at h
    by_cases h2 : k < 2 ^ 32
    · rw [if_pos h2] at h
      obtain rfl : b = 0x72 :: natToLE 4 k := (Option.some.inj h).symm
      rw [natToLE4_cons]
      simp [parsePut]
    · rw [if_neg h2] at h
      exact absurd h (by simp)

theorem parseInt_serInt (x : Int) (b rest : List Nat) (h : serInt x = some b) :
    parseInt (b ++ rest) = some (x, rest) := by
  unfold serInt at h
  by_cases h1 : 0 ≤ x ∧ x ≤ 0xFF
  · rw [if_pos h1] at h
    obtain rfl : b = [0x4B, x.toNat] := (Option.some.inj h).symm
    simp only [List.cons_append, List.nil_append, parseInt]
    rw [if_pos trivial]
    rw [Int.toNat_of_nonneg h1.1]
  · rw [if_neg h1] at h
    by_cases h2 : 0 ≤ x ∧ x ≤ 0xFFFF
    · rw [if_pos h2] at h
      obtain rfl : b = [0x4D, x.toNat % 256, x.toNat / 256] := (Option.some.inj h).symm
      simp only [List.cons_append, List.nil_append, parseInt]
      rw [if_neg (by norm_num), if_pos trivial]
      have hval : x.toNat % 256 + 256 * (x.toNat / 256) = x.toNat := by omega
      rw [hval, Int.toNat_of_nonneg h2.1]
    · rw [if_neg h2] at h
      by_cases h3 : -0x80000000 ≤ x ∧ x ≤ 0x7FFFFFFF
      · rw [if_pos h3] at h
        obtain rfl : b = 0x4A :: natToLE 4 (x % ((2 ^ 32 : Nat) : Int)).toNat :=
          (Option.some.inj h).symm
        set w := (x % ((2 ^ 32 : Nat) : Int)).toNat with hwdef
        have hw : (w : Int) = x ∨ (w : Int) = x + (2 ^ 32 : Nat) := by
          rw [hwdef]
          exact emod_toNat_cases x (2 ^ 32) (by push_cast; omega) (by push_cast; omega)
        have hwlt : w < 2 ^ 32 := by
          have := Int.emod_lt_of_pos x (show (0 : Int) < ((2 ^ 32 : Nat) : Int) by norm_num)
          have h0 := Int.emod_nonneg x (show ((2 ^ 32 : Nat) : Int) ≠ 0 by norm_num)
          omega
        rw [natToLE4_cons]
        simp only [List.cons_append, List.nil_append, parseInt]
        rw [if_neg (by norm_num), if_neg (by norm_num), if_pos trivial]
        have hval : w % 256 + 256 * (w / 256 % 256) + 65536 * (w / 256 / 256 % 256)
            + 16777216 * (w / 256 / 256 / 256 % 256) = w := by omega
        simp only [hval]
        by_cases hlt : w < 0x80000000
        · rw [if_pos hlt]
          simp only [Option.some.injEq, Prod.mk.injEq]
          refine ⟨?_, trivial⟩
          rcases hw with hw | hw
          · exact hw
          · push_cast at hw
            omega
        · rw [if_neg hlt]
          simp only [Option.some.injEq, Prod.mk.injEq]
          refine ⟨?_, trivial⟩
          rcases hw with hw | hw
          · omega
          · push_cast at hw
            omega
      · rw [if_neg h3] at h
        simp only at h
        by_cases h4 : (encodeLong x).length < 256
        · rw [if_pos h4] at h
          obtain rfl : b = 0x8A :: (encodeLong x).length :: encodeLong x :=
            (Option.some.inj h).symm
          simp only [List.cons_append, parseInt]
          rw [if_neg (by norm_num), if_neg (by norm_num), if_neg (by norm_num),
            if_pos trivial]
          rw [if_pos (by simp)]
          rw [List.take_left, List.drop_left, decodeLong_encodeLong]
        · rw [if_neg h4] at h
          by_cases h5 : (encodeLong x).length < 0x80000000
          · rw [if_pos h5] at h
            obtain rfl : b = 0x8B :: (natToLE 4 (encodeLong x).length ++ encodeLong x) :=
              (Option.some.inj h).symm
            set n := (encodeLong x).length with hndef
            rw [natToLE4_cons]
            simp only [List.cons_append, List.append_assoc, List.nil_append, parseInt]
            rw [if_neg (by norm_num), if_neg (by norm_num), if_neg (by norm_num),
              if_neg (by norm_num), if_pos trivial]
            have hval : n % 256 + 256 * (n / 256 % 256) + 65536 * (n / 256 / 256 % 256)
                + 16777216 * (n / 256 / 256 / 256 % 256) = n := by omega
            simp only [hval]
            rw [if_pos (by simp)]
            rw [hndef, List.take_left, List.drop_left, decodeLong_encodeLong]
          · rw [if_neg h5] at h
            exact absurd h (by simp)

theorem parseStr_serStr (s : String) (b rest : List Nat) (h : serStr s = some b) :
    parseStr (b ++ rest) = some (s, rest) := by
  unfold serStr at h
  by_cases h1 : (utf8Encode s).length < 2 ^ 32
  · rw [if_pos h1] at h
    obtain rfl : b = 0x58 :: (natToLE 4 (utf8Encode s).length ++ utf8Encode s) :=
      (Option.some.inj h).symm
    set n := (utf8Encode s).length with hndef
    rw [natToLE4_cons]
    simp only [List.cons_append, List.append_assoc, List.nil_append, parseStr]
    rw [if_pos trivial]
    have hval : n % 256 + 256 * (n / 256 % 256) + 65536 * (n / 256 / 256 % 256)
        + 16777216 * (n / 256 / 256 / 256 % 256) = n := by omega
    simp only [hval]
    rw [if_pos (by simp)]
    rw [hndef, List.take_left, List.drop_left, utf8Decode_utf8Encode]
  · rw [if_neg h1] at h
    exact absurd h (by simp)

theorem expectByte_cons (b : Nat) (rest : List Nat) :
    expectByte b (b :: rest) = some rest := by
  simp [expectByte]

/-- Pickling of one (metric, (timestamp, value)) tuple, entered with memo
counter k: save_str memoises the metric at index k; the inner (timestamp,
value) 2-tuple saves its two ints, emits TUPLE2 and memoises at k+1; the
outer 2-tuple emits TUPLE2 and memoises at k+2 (save_tuple writes elements
first, then the TUPLE2 opcode, then the memo put). -/
def encItem (it : MetricTuple) (k : Nat) : Option (List Nat) := do
  let sb ← serStr it.1
  let p1 ← binput k
  let tb ← serInt it.2.1
  let vb ← serInt it.2.2
  let p2 ← binput (k + 1)
  let p3 ← binput (k + 2)
  some (sb ++ p1 ++ tb ++ vb ++ 0x86 :: (p2 ++ 0x86 :: p3))

/-- Decoder for one pickled (metric, (timestamp, value)) tuple. -/
def parseItem (bs : List Nat) : Option (MetricTuple × List Nat) := do
  let (s, r1) ← parseStr bs
  let r2 ← parsePut r1
  let (t, r3) ← parseInt r2
  let (v, r4) ← parseInt r3
  let r5 ← expectByte 0x86 r4
  let r6 ← parsePut r5
  let r7 ← expectByte 0x86 r6
  let r8 ← parsePut r7
  some ((s, (t, v)), r8)

theorem parseItem_encItem (it : MetricTuple) (k : Nat) (b rest : List Nat)
    (h : encItem it k = some b) : parseItem (b ++ rest) = some (it, rest) := by
  unfold encItem at h
  simp only [Option.bind_eq_bind, Option.bind_eq_some, Option.some.injEq] at h
  obtain ⟨sb, hsb, p1, hp1, tb, htb, vb, hvb, p2, hp2, p3, hp3, rfl⟩ := h
  unfold parseItem
  simp only [List.append_assoc, List.cons_append]
  rw [parseStr_serStr it.1 sb _ hsb]
  simp only [Option.bind_eq_bind, Option.some_bind]
  rw [parsePut_binput k p1 _ hp1]
  simp only [Option.some_bind]
  rw [parseInt_serInt it.2.1 tb _ htb]
  simp only [Option.some_bind]
  rw [parseInt_serInt it.2.2 vb _ hvb]
  simp only [Option.some_bind]
  rw [expectByte_cons]
  simp only [Option.some_bind]
  rw [parsePut_binput (k + 1) p2 _ hp2]
  simp only [Option.some_bind]
  rw [expectByte_cons]
  simp only [Option.some_bind]
  rw [parsePut_binput (k + 2) p3 _ hp3]
  simp only [Option.some_bind]

theorem serStr_shape (s : String) (b : List Nat) (h : serStr s = some b) :
    ∃ t, b = 0x58 :: t := by
  unfold serStr at h
  by_cases h1 : (utf8Encode s).length < 2 ^ 32
  · rw [if_pos h1] at h
    exact ⟨_, (Option.some.inj h).symm⟩
  · rw [if_neg h1] at h
    exact absurd h (by simp)

theorem encItem_shape (it : MetricTuple) (k : Nat) (b : List Nat)
    (h : encItem it k = some b) : ∃ t, b = 0x58 :: t := by
  unfold encItem at h
  simp only [Option.bind_eq_bind, Option.bind_eq_some, Option.some.injEq] at h
  obtain ⟨sb, hsb, p1, hp1, tb, htb, vb, hvb, p2, hp2, p3, hp3, rfl⟩ := h
  obtain ⟨t, rfl⟩ := serStr_shape it.1 sb hsb
  refine ⟨t ++ p1 ++ tb ++ vb ++ 0x86 :: (p2 ++ 0x86 :: p3), ?_⟩
  simp

/-- Saving the items of one batch slice in order; each item advances the memo
counter by 3 (string, inner tuple, outer tuple). -/
def encItemsSeq : List MetricTuple → Nat → Option (List Nat)
  | [], _ => some []
  | it :: restItems, k => do
    let b ← encItem it k
    let bs ← encItemsSeq restItems (k + 3)
    some (b ++ bs)

/-- Decoder loop inside one MARK..APPENDS group (fuel bounds the item
count). -/
def parseItems : Nat → List Nat → List MetricTuple → Option (List MetricTuple × List Nat)
  | 0, _, _ => none
  | f + 1, bs, acc =>
    if bs.head? = some 0x65 then some (acc.reverse, bs.tail)
    else
      match parseItem bs with
      | some (it, restBytes) => parseItems f restBytes (it :: acc)
      | none => none

theorem encItemsSeq_length (l : List MetricTuple) : ∀ k b,
    encItemsSeq l k = some b → l.length ≤ b.length := by
  induction l with
  | nil => intro k b h; simp
  | cons it l ih =>
    intro k b h
    simp only [encItemsSeq, Option.bind_eq_bind, Option.bind_eq_some,
      Option.some.injEq] at h
    obtain ⟨ib, hib, lb, hlb, rfl⟩ := h
    obtain ⟨t, rfl⟩ := encItem_shape it k ib hib
    have := ih (k + 3) lb hlb
    simp
    omega

theorem parseItems_encItemsSeq (l : List MetricTuple) : ∀ k b fuel acc rest,
    encItemsSeq l k = some b → l.length + 1 ≤ fuel →
    parseItems fuel (b ++ 0x65 :: rest) acc = some (acc.reverse ++ l, rest) := by
  induction l with
  | nil =>
    intro k b fuel acc rest h hf
    obtain rfl : b = [] := (Option.some.inj h).symm
    cases fuel with
    | zero => omega
    | succ f => simp [parseItems]
  | cons it l ih =>
    intro k b fuel acc rest h hf
    simp only [encItemsSeq, Option.bind_eq_bind, Option.bind_eq_some,
      Option.some.injEq] at h
    obtain ⟨ib, hib, lb, hlb, rfl⟩ := h
    cases fuel with
    | zero => simp at hf
    | succ f =>
      obtain ⟨t, hts⟩ := encItem_shape it k ib hib
      have hhead : ((ib ++ lb) ++ 0x65 :: rest).head? = some 0x58 := by
        rw [hts]; rfl
      simp only [parseItems]
      rw [if_neg (by rw [hhead]; simp)]
      rw [List.append_assoc]
      rw [parseItem_encItem it k ib _ hib]
      dsimp only
      rw [ih (k + 3) lb f (it :: acc) rest hlb (by simp at hf; omega)]
      simp

/-- One slice of Pickler._batch_appends: MARK items APPENDS for more than
one item, item APPEND for exactly one, nothing for an empty slice. -/
def encChunk (tmp : List MetricTuple) (k : Nat) : Option (List Nat) :=
  if 1 < tmp.length then
    match encItemsSeq tmp k with
    | some b => some (0x28 :: (b ++ [0x65]))
    | none => none
  else
    match tmp with
    | [x] =>
      match encItem x k with
      | some b => some (b ++ [0x61])
      | none => none
    | _ => some []

/-- Loop body of Pickler._batch_appends with _BATCH_SIZE = 1000, with an
explicit iteration bound so the function computes by reduction: emit a slice
of up to 1000 items, stop after a short slice (len(tmp) < 1000 iff
len(l) < 1000), otherwise continue with the remainder; each saved item
consumed 3 memo indexes. -/
def encBatchesAux : Nat → List MetricTuple → Nat → Option (List Nat)
  | 0, _, _ => none
  | ef + 1, l, k =>
    if l.length < 1000 then encChunk (l.take 1000) k
    else
      match encChunk (l.take 1000) k with
      | some cb =>
        match encBatchesAux ef (l.drop 1000) (k + 3 * (l.take 1000).length) with
        | some more => some (cb ++ more)
        | none => none
      | none => none

/-- Pickler._batch_appends: the loop runs at most once per 1000 items plus a
final short slice, so length + 1 iterations always suffice and the bound is
never hit. -/
def encBatches (l : List MetricTuple) (k : Nat) : Option (List Nat) :=
  encBatchesAux (l.length + 1) l k

/-- Decoder loop over batch groups up to the STOP opcode (fuel bounds the
iteration count). -/
def parseBody : Nat → List Nat → List MetricTuple → Option (List MetricTuple × List Nat)
  | 0, _, _ => none
  | f + 1, bs, acc =>
    if bs.head? = some 0x2E then some (acc.reverse, bs.tail)
    else if bs.head? = some 0x28 then
      match parseItems f bs.tail [] with
      | some (its, restBytes) => parseBody f restBytes (its.reverse ++ acc)
      | none => none
    else
      match parseItem bs with
      | some (it, restBytes) =>
        if restBytes.head? = some 0x61 then parseBody f restBytes.tail (it :: acc)
        else none
      | none => none

theorem encChunk_length (tmp : List MetricTuple) (k : Nat) (b : List Nat)
    (h : encChunk tmp k = some b) : tmp.length ≤ b.length := by
  unfold encChunk at h
  by_cases h1 : 1 < tmp.length
  · rw [if_pos h1] at h
    cases hseq : encItemsSeq tmp k with
    | none => rw [hseq] at h; simp at h
    | some ib =>
      rw [hseq] at h
      obtain rfl : b = 0x28 :: (ib ++ [0x65]) := (Option.some.inj h).symm
      have := encItemsSeq_length tmp k ib hseq
      simp
      omega
  · rw [if_neg h1] at h
    match tmp with
    | [] =>
      dsimp only at h
      obtain rfl : b = [] := (Option.some.inj h).symm
      simp
    | [x] =>
      dsimp only at h
      cases hit : encItem x k with
      | none => rw [hit] at h; simp at h
      | some ib =>
        rw [hit] at h
        obtain rfl : b = ib ++ [0x61] := (Option.some.inj h).symm
        obtain ⟨t, rfl⟩ := encItem_shape x k ib hit
        simp
    | x :: y :: t => simp at h1

theorem encBatchesAux_length : ∀ ef l k b,
    encBatchesAux ef l k = some b → List.length l ≤ List.length b := by
  intro ef
  induction ef with
  | zero =>
    intro l k b h
    simp [encBatchesAux] at h
  | succ ef ih =>
    intro l k b h
    simp only [encBatchesAux] at h
    by_cases hsmall : l.length < 1000
    · rw [if_pos hsmall] at h
      have := encChunk_length (l.take 1000) k b h
      rw [List.take_of_length_le (by omega)] at this
      exact this
    · rw [if_neg hsmall] at h
      cases hc : encChunk (l.take 1000) k with
      | none => rw [hc] at h; simp at h
      | some cb =>
        rw [hc] at h
        cases hm : encBatchesAux ef (l.drop 1000) (k + 3 * (l.take 1000).length) with
        | none => rw [hm] at h; simp at h
        | some more =>
          rw [hm] at h
          obtain rfl : b = cb ++ more := (Option.some.inj h).symm
          have h1 := encChunk_length (l.take 1000) k cb hc
          have h2 := ih (l.drop 1000) _ more hm
          simp only [List.length_take, List.length_drop] at h1 h2
          simp only [List.length_append]
          omega

/-- Parsing the encoded batches followed by STOP collects exactly the encoded
items, in order. -/
theorem parseBody_encBatches : ∀ fuel ef l k b acc rest,
    encBatchesAux ef l k = some b → List.length l + 2 ≤ fuel →
    parseBody fuel (b ++ 0x2E :: rest) acc = some (acc.reverse ++ l, rest) := by
  intro fuel
  induction fuel using Nat.strong_induction_on with
  | _ fuel ih =>
    intro ef l k b acc rest h hf
    cases ef with
    | zero => simp [encBatchesAux] at h
    | succ ef => ?_
    simp only [encBatchesAux] at h
    by_cases hsmall : l.length < 1000
    · rw [if_pos hsmall] at h
      rw [List.take_of_length_le (by omega)] at h
      unfold encChunk at h
      by_cases h1 : 1 < l.length
      · rw [if_pos h1] at h
        cases hseq : encItemsSeq l k with
        | none => rw [hseq] at h; simp at h
        | some ib =>
          rw [hseq] at h
          obtain rfl : b = 0x28 :: (ib ++ [0x65]) := (Option.some.inj h).symm
          cases fuel with
          | zero => omega
          | succ f =>
            simp only [List.cons_append, List.append_assoc, List.singleton_append,
              List.nil_append]
            simp only [parseBody]
            rw [if_neg (by simp), if_pos (by simp)]
            dsimp only [List.tail_cons]
            rw [parseItems_encItemsSeq l k ib f [] (0x2E :: rest) hseq (by omega)]
            dsimp only [List.reverse_nil, List.nil_append]
            cases f with
            | zero => omega
            | succ f2 =>
              simp [parseBody]
      · rw [if_neg h1] at h
        match l with
        | [] =>
          dsimp only at h
          obtain rfl : b = [] := (Option.some.inj h).symm
          cases fuel with
          | zero => omega
          | succ f =>
            simp [parseBody]
        | [it] =>
          dsimp only at h
          cases hit : encItem it k with
          | none => rw [hit] at h; simp at h
          | some ib =>
            rw [hit] at h
            obtain rfl : b = ib ++ [0x61] := (Option.some.inj h).symm
            have hf3 : 3 ≤ fuel := by
              simp only [List.length_cons, List.length_nil] at hf
              omega
            cases fuel with
            | zero => omega
            | succ f =>
              obtain ⟨t, hts⟩ := encItem_shape it k ib hit
              have hhead : ((ib ++ [0x61]) ++ 0x2E :: rest).head? = some 0x58 := by
                rw [hts]; rfl
              simp only [parseBody]
              rw [if_neg (by rw [hhead]; simp), if_neg (by rw [hhead]; simp)]
              have hre : (ib ++ [0x61]) ++ 0x2E :: rest
                  = ib ++ (0x61 :: 0x2E :: rest) := by simp
              rw [hre, parseItem_encItem it k ib _ hit]
              dsimp only
              simp only [List.head?_cons, List.tail_cons]
              rw [if_pos trivial]
              cases f with
              | zero => omega
              | succ f2 =>
                simp [parseBody]
        | a :: b2 :: t => simp at h1
    · rw [if_neg hsmall] at h
      cases hc : encChunk (l.take 1000) k with
      | none => rw [hc] at h; simp at h
      | some cb =>
        rw [hc] at h
        cases hm : encBatchesAux ef (l.drop 1000) (k + 3 * (l.take 1000).length) with
        | none => rw [hm] at h; simp at h
        | some more =>
          rw [hm] at h
          obtain rfl : b = cb ++ more := (Option.some.inj h).symm
          have htake : (l.take 1000).length = 1000 := by
            simp only [List.length_take]
            omega
          unfold encChunk at hc
          rw [if_pos (by omega)] at hc
          cases hseq : encItemsSeq (l.take 1000) k with
          | none => rw [hseq] at hc; simp at hc
          | some ib =>
            rw [hseq] at hc
            obtain rfl : cb = 0x28 :: (ib ++ [0x65]) := (Option.some.inj hc).symm
            cases fuel with
            | zero => omega
            | succ f =>
              simp only [List.cons_append, List.append_assoc, List.singleton_append,
                List.nil_append]
              simp only [parseBody]
              rw [if_neg (by simp), if_pos (by simp)]
              dsimp only [List.tail_cons]
              rw [parseItems_encItemsSeq (l.take 1000) k ib f []
                (more ++ 0x2E :: rest) hseq (by omega)]
              dsimp only [List.reverse_nil, List.nil_append]
              rw [ih f (by omega) ef (l.drop 1000) (k + 3 * (l.take 1000).length) more
                ((l.take 1000).reverse ++ acc) rest hm (by
                  simp only [List.length_drop]
                  omega)]
              simp only [List.reverse_append, List.reverse_reverse,
                Option.some.injEq, Prod.mk.injEq]
              constructor
              · rw [List.append_assoc, List.take_append_drop]
              · trivial

/-- pickle.dumps(listOfMetricTuples, protocol=2) for a list of
(metric, (timestamp, value)) tuples, assuming all saved objects are distinct
(no memo hits; a shared identical object would be emitted as a BINGET
back-reference instead): the PROTO 2 header, the EMPTY_LIST opcode memoised
at index 0, the batched APPEND/APPENDS groups, and STOP. -/
def pickleDumps (l : List MetricTuple) : Option (List Nat) := do
  let body ← encBatches l 1
  some (0x80 :: 0x02 :: 0x5D :: 0x71 :: 0x00 :: (body ++ [0x2E]))

/-- Unpickling (pickle.loads) restricted to the opcode subset pickleDumps
emits (PROTO, EMPTY_LIST, BINPUT/LONG_BINPUT, BINUNICODE, BININT1, BININT2,
BININT, LONG1, LONG4, TUPLE2, MARK, APPENDS, APPEND, STOP); memo writes are
skipped because no GET opcode occurs; bytes after STOP are ignored, as
pickle.loads does. -/
def pickleLoads (bs : List Nat) : Option (List MetricTuple) := do
  let r1 ← expectByte 0x80 bs
  let r2 ← expectByte 0x02 r1
  let r3 ← expectByte 0x5D r2
  let r4 ← parsePut r3
  match parseBody (bs.length + 1) r4 [] with
  | some (l, _) => some l
  | none => none

/-- Full pickle round trip: loads after dumps recovers the tuple list. -/
theorem pickleLoads_pickleDumps (l : List MetricTuple) (bs : List Nat)
    (h : pickleDumps l = some bs) : pickleLoads bs = some l := by
  unfold pickleDumps at h
  simp only [Option.bind_eq_bind, Option.bind_eq_some, Option.some.injEq] at h
  obtain ⟨body, hbody, rfl⟩ := h
  unfold pickleLoads
  rw [expectByte_cons]
  simp only [Option.bind_eq_bind, Option.some_bind]
  rw [expectByte_cons]
  simp only [Option.some_bind]
  rw [expectByte_cons]
  simp only [Option.some_bind]
  rw [show parsePut (0x71 :: 0x00 :: (body ++ [0x2E])) = some (body ++ [0x2E]) by
    simp [parsePut]]
  simp only [Option.some_bind]
  unfold encBatches at hbody
  have hlen := encBatchesAux_length _ l 1 body hbody
  rw [parseBody_encBatches _ _ l 1 body [] [] hbody (by simp; omega)]
  simp

/-! ## PickleProtocol (aiographitesend.py lines 42-60) -/

/-- PickleProtocol.data_formate_function: return (metric, (timestamp, value)). -/
def pickle_data_formate_function (metric : String) (value timestamp : Int) :
    MetricTuple :=
  (metric, (timestamp, value))

/-- PickleProtocol.generate_message_function: payload =
pickle.dumps(listOfMetricTuples, protocol=2); header = struct.pack("!L",
len(payload)), a 4-byte big-endian unsigned length (struct.error past 2^32,
modelled as none); message = header + payload. -/
def pickle_generate_message_function (listOfMetricTuples : List MetricTuple) :
    Option (List Nat) := do
  let payload ← pickleDumps listOfMetricTuples
  if payload.length < 2 ^ 32 then some (natToBE 4 payload.length ++ payload)
  else none

/-- C1: decoding the payload portion of the bytes produced by the
Framed-Binary (pickle) encodeBatch recovers exactly the original ordered
list of (identifier, (timestamp, value)) tuples: unpickling after pickling
is the identity on the unit list, order included. -/
theorem pickle_encodeBatch_roundtrip (l : List MetricTuple) (msg : List Nat)
    (h : pickle_generate_message_function l = some msg) :
    pickleLoads (msg.drop 4) = some l := by
  unfold pickle_generate_message_function at h
  simp only [Option.bind_eq_bind, Option.bind_eq_some] at h
  obtain ⟨payload, hp, hmsg⟩ := h
  by_cases hlen : payload.length < 2 ^ 32
  · rw [if_pos hlen] at hmsg
    obtain rfl : msg = natToBE 4 payload.length ++ payload :=
      (Option.some.inj hmsg).symm
    have hd : (natToBE 4 payload.length ++ payload).drop 4 = payload := by
      conv_lhs =>
        rw [show 4 = (natToBE 4 payload.length).length from
          (natToBE_length 4 _).symm]
      exact List.drop_left _ _
    rw [hd]
    exact pickleLoads_pickleDumps l payload hp
  · rw [if_neg hlen] at hmsg
    exact absurd hmsg (by simp)

/-- Witness for C1 at a concrete input. -/
theorem pickle_encodeBatch_roundtrip_witness :
    pickleLoads (((pickle_generate_message_function
        [("x", (100, 5))]).getD []).drop 4)
      = some [("x", (100, 5))] :=
  pickle_encodeBatch_roundtrip [("x", (100, 5))] _ rfl

/-- C3: the Framed-Binary encodeBatch output is a 4-byte big-endian unsigned
length header followed by the serialized payload; the total length is
4 + payload length, and the first 4 bytes read back as the total length
minus 4. -/
theorem pickle_frame_header (l : List MetricTuple) (msg : List Nat)
    (h : pickle_generate_message_function l = some msg) :
    ∃ payload, pickleDumps l = some payload ∧
      msg = natToBE 4 payload.length ++ payload ∧
      msg.length = 4 + payload.length ∧
      beVal (msg.take 4) = msg.length - 4 := by
  unfold pickle_generate_message_function at h
  simp only [Option.bind_eq_bind, Option.bind_eq_some] at h
  obtain ⟨payload, hp, hmsg⟩ := h
  by_cases hlen : payload.length < 2 ^ 32
  · rw [if_pos hlen] at hmsg
    obtain rfl : msg = natToBE 4 payload.length ++ payload :=
      (Option.some.inj hmsg).symm
    refine ⟨payload, hp, rfl, ?_, ?_⟩
    · simp [natToBE_length]
    · have ht : (natToBE 4 payload.length ++ payload).take 4
          = natToBE 4 payload.length := by
        conv_lhs =>
          rw [show 4 = (natToBE 4 payload.length).length from
            (natToBE_length 4 _).symm]
        exact List.take_left _ _
      rw [ht, beVal_natToBE]
      simp only [List.length_append, natToBE_length]
      omega
  · rw [if_neg hlen] at hmsg
    exact absurd hmsg (by simp)

/-- Witness for C3 at a concrete input. -/
theorem pickle_frame_header_witness :
    ∃ payload, pickleDumps [("y", (200, 6))] = some payload ∧
      (pickle_generate_message_function [("y", (200, 6))]).getD []
        = natToBE 4 payload.length ++ payload ∧
      ((pickle_generate_message_function [("y", (200, 6))]).getD []).length
        = 4 + payload.length ∧
      beVal (((pickle_generate_message_function [("y", (200, 6))]).getD []).take 4)
        = ((pickle_generate_message_function [("y", (200, 6))]).getD []).length - 4 :=
  pickle_frame_header [("y", (200, 6))] _ rfl

/-! ## PlaintextProtocol (aiographitesend.py lines 20-38) -/

/-- Python str.join semantics: separator between consecutive elements. -/
def pyJoin (sep : String) : List String → String
  | [] => ""
  | [x] => x
  | x :: xs => x ++ sep ++ pyJoin sep xs

/-- str.encode('ascii'): the code points as bytes when every character is in
the ASCII range, a UnicodeEncodeError (modelled as none) otherwise. -/
def asciiEncode (s : String) : Option (List Nat) :=
  if s.data.all (fun c => decide (c.toNat < 128)) then some (s.data.map Char.toNat)
  else none

/-- PlaintextProtocol.data_formate_function: " ".join([metric, str(value),
str(timestamp)]) with a newline appended. -/
def plaintext_data_formate_function (metric : String) (value timestamp : Int) :
    String :=
  pyJoin " " [metric, toString value, toString timestamp] ++ "\n"

/-- PlaintextProtocol.generate_message_function: "".join(listOfPlaintext)
encoded as ASCII bytes. -/
def plaintext_generate_message_function (listOfPlaintext : List String) :
    Option (List Nat) :=
  asciiEncode (pyJoin "" listOfPlaintext)

theorem pyJoin_empty_eq_foldr (l : List String) :
    pyJoin "" l = l.foldr (fun a b => a ++ b) "" := by
  induction l with
  | nil => rfl
  | cons x xs ih =>
    cases xs with
    | nil => simp [pyJoin]
    | cons y ys =>
      simp only [pyJoin, List.foldr_cons] at *
      rw [← ih]
      simp [pyJoin]

/-- C2: the Line formatSample yields the string
identifier-space-value-space-timestamp-newline, and the Line encodeBatch
concatenates the lines in input order and encodes them as ASCII bytes; at
the spec's concrete input the batch equals the bytes of
"x 5 100\ny 6 200\n". -/
theorem plaintext_encode_spec :
    (∀ m v t, plaintext_data_formate_function m v t
        = m ++ " " ++ toString v ++ " " ++ toString t ++ "\n")
    ∧ (∀ lines,
        (∀ c ∈ (lines.foldr (fun a b => a ++ b) "").data, c.toNat < 128) →
        plaintext_generate_message_function lines
          = some ((lines.foldr (fun a b => a ++ b) "").data.map Char.toNat))
    ∧ plaintext_generate_message_function
        [plaintext_data_formate_function "x" 5 100,
          plaintext_data_formate_function "y" 6 200]
      = some (("x 5 100\ny 6 200\n").data.map Char.toNat) := by
  refine ⟨?_, ?_, ?_⟩
  · intro m v t
    simp [plaintext_data_formate_function, pyJoin, String.append_assoc]
  · intro lines hascii
    unfold plaintext_generate_message_function asciiEncode
    rw [pyJoin_empty_eq_foldr]
    rw [if_pos ?hc]
    case hc =>
      rw [List.all_eq_true]
      intro c hc
      simpa using hascii c hc
  · rfl

/-- Witness for C2's conditional conjunct at a concrete input. -/
theorem plaintext_encode_spec_witness :
    plaintext_generate_message_function ["a 1 2\n"]
      = some ((["a 1 2\n"].foldr (fun a b => a ++ b) "").data.map Char.toNat) :=
  plaintext_encode_spec.2.1 ["a 1 2\n"] (by decide)

/-! ## Name Sanitizer

The escaping module aiographite.graphite_escaping is imported by the source
file but is not among the available sources; only its caller
_to_graphite_valid_metric_name is.  Its encoder is therefore modelled from
the spec. -/

/-- Modelled from the spec: GraphiteEncoder.encode of the missing
aiographite.graphite_escaping module.  Spec 4.1: every character outside the
accepted identifier alphabet (letters, digits, and a small punctuation
allow-list, taken here as hyphen and underscore) is escaped so the result
never contains a literal dot from within a segment, space, or newline;
spec 8 fixes the escape token shape through the example
sanitize(["a.b","c"]) = "a_2e_b.c": underscore, lowercase hex code,
underscore. -/
def graphiteEncodeChar (c : Char) : String :=
  if c.isAlphanum ∨ c = '-' ∨ c = '_' then String.mk [c]
  else String.mk ('_' :: (Nat.toDigits 16 c.toNat ++ ['_']))

/-- Modelled from the spec: per-segment escaping, the concatenation of the
per-character escapes. -/
def GraphiteEncoder.encode (s : String) : String :=
  String.mk (s.data.map (fun c => (graphiteEncodeChar c).data)).flatten

/-- AIOGraphite._to_graphite_valid_metric_name (lines 255-271):
".".join([GraphiteEncoder.encode(dir_name) for dir_name in metric_dir_list]). -/
def to_graphite_valid_metric_name (metric_dir_list : List String) : String :=
  pyJoin "." (metric_dir_list.map GraphiteEncoder.encode)

/-- Counterexample to C8: on the empty segment sequence the sanitizer raises
nothing and returns the empty string (".".join of an empty list), not an
InvalidPathError. -/
theorem sanitize_empty_counterexample : to_graphite_valid_metric_name [] = "" :=
  rfl

theorem graphiteEncodeChar_data_ne_nil (c : Char) :
    (graphiteEncodeChar c).data ≠ [] := by
  unfold graphiteEncodeChar
  split_ifs <;> simp [String.mk]

theorem encode_eq_empty_iff (s : String) :
    GraphiteEncoder.encode s = "" ↔ s = "" := by
  constructor
  · intro h
    unfold GraphiteEncoder.encode at h
    have hdata : (s.data.map (fun c => (graphiteEncodeChar c).data)).flatten = [] :=
      congrArg String.data h
    cases hs : s.data with
    | nil =>
      rw [String.ext_iff, hs]
    | cons c cs =>
      rw [hs] at hdata
      simp only [List.map_cons, List.flatten_cons] at hdata
      rw [List.append_eq_nil] at hdata
      exact absurd hdata.1 (graphiteEncodeChar_data_ne_nil c)
  · intro h
    rw [h]
    rfl

/-- C8 corrected: the sanitizer never raises; on the empty segment sequence
it returns the empty string (no InvalidPathError exists anywhere in the
code), and for a non-empty segment sequence the result is empty exactly when
the input is the single empty segment. -/
theorem sanitize_amended :
    to_graphite_valid_metric_name [] = ""
    ∧ ∀ l, l ≠ [] →
        (to_graphite_valid_metric_name l = "" ↔ l = [""]) := by
  refine ⟨rfl, ?_⟩
  intro l hl
  match l with
  | [x] =>
    unfold to_graphite_valid_metric_name
    simp only [List.map_cons, List.map_nil, pyJoin]
    rw [encode_eq_empty_iff]
    simp
  | x :: y :: t =>
    unfold to_graphite_valid_metric_name
    simp only [List.map_cons, pyJoin]
    constructor
    · intro h
      exfalso
      have hd := congrArg String.data h
      simp only [String.data_append, show (".").data = ['.'] from rfl,
        show ("" : String).data = [] from rfl] at hd
      rcases List.append_eq_nil.mp hd with ⟨hd1, _⟩
      rcases List.append_eq_nil.mp hd1 with ⟨_, hdot⟩
      exact absurd hdot (by simp)
    · intro h
      simp at h

/-- Witness for the amended C8 at a concrete input. -/
theorem sanitize_amended_witness : to_graphite_valid_metric_name [""] = "" :=
  (sanitize_amended.2 [""] (by simp)).mpr rfl

/-! ## The AIOGraphite session (aiographitesend.py lines 65-271)

Python/asyncio semantics reflected in the embedding:

- AIOGraphite.__init__ (line 71) calls self._connect_to_graphite() without
  await; calling an async def merely creates a coroutine object, which is
  discarded, so the connection coroutine never runs and self.reader and
  self.writer are never assigned.
- send_single_metric (line 98), send_metric_list (line 125) and
  send_valid_metric_dict (line 179) likewise call async send methods without
  await: the inner coroutine is created and dropped, producing no effect and
  no exception.
- _generate_message_for_data_list (lines 241-250) initializes listofData but
  appends to listOfData; Python raises NameError on the first loop iteration
  (the attribute lookup precedes argument evaluation), so any non-empty
  dataset raises, while the empty dataset passes listofData = [] on to
  generate_message_function.
- disconnect (lines 183-195) wraps self.writer.close() in try/except
  AttributeError/except Exception/finally, every arm ending with
  self.writer = None, so it never raises. -/

/-- The two protocol strategy objects. -/
inductive Protocol where
  | plaintext
  | pickle
deriving DecidableEq

/-- An encoded unit as produced by data_formate_function: a text line for
the plaintext protocol, a metric tuple for the pickle protocol. -/
inductive EncodedUnit where
  | line (s : String)
  | tup (t : MetricTuple)
deriving DecidableEq

/-- Python exceptions arising on the modelled paths, plus the spec's
NotConnectedError (which no code in the repository defines or raises). -/
inductive PyError where
  | attributeError
  | nameError
  | valueError
  | typeError
  | unicodeEncodeError
  | structError
  | notConnectedError
deriving DecidableEq

/-- The state of the session's writer attribute. -/
inductive WriterAttr where
  | unset
  | pyNone
  | conn (closed : Bool)
deriving DecidableEq

/-- The session object together with its observable network effect: the
ordered log of writer.write payloads. -/
structure Session where
  writerAttr : WriterAttr
  protocol : Protocol
  written : List (List Nat)
deriving DecidableEq

/-- Result of one session method call: normal return or a raised Python
exception, with the session state either way (writes happen before any
modelled failure point). -/
inductive PyResult where
  | ok (st : Session)
  | err (e : PyError) (st : Session)
deriving DecidableEq

/-- AIOGraphite.__init__ (lines 67-75): store the server address, call
self._connect_to_graphite() without await (the coroutine is discarded and
never opens a connection, so self.writer stays unset), store the protocol
strategy and the loop. -/
def AIOGraphite_init (protocol : Protocol) : Session :=
  { writerAttr := .unset, protocol := protocol, written := [] }

/-- Dispatch of self.protocol.data_formate_function. -/
def protoFormat : Protocol → String → Int → Int → EncodedUnit
  | .plaintext, metric, value, timestamp =>
    .line (plaintext_data_formate_function metric value timestamp)
  | .pickle, metric, value, timestamp =>
    .tup (pickle_data_formate_function metric value timestamp)

def unitsToLines : List EncodedUnit → Option (List String)
  | [] => some []
  | .line s :: rest => do
    let r ← unitsToLines rest
    some (s :: r)
  | .tup _ :: _ => none

def unitsToTuples : List EncodedUnit → Option (List MetricTuple)
  | [] => some []
  | .tup t :: rest => do
    let r ← unitsToTuples rest
    some (t :: r)
  | .line _ :: _ => none

/-- Dispatch of self.protocol.generate_message_function.  Units of the wrong
shape for the protocol are a TypeError; the session methods always format
with the same protocol object, so that arm is never reached from them. -/
def protoGenerate (p : Protocol) (units : List EncodedUnit) :
    Except PyError (List Nat) :=
  match p with
  | .plaintext =>
    match unitsToLines units with
    | some lines =>
      match plaintext_generate_message_function lines with
      | some msg => .ok msg
      | none => .error .unicodeEncodeError
    | none => .error .typeError
  | .pickle =>
    match unitsToTuples units with
    | some tuples =>
      match pickle_generate_message_function tuples with
      | some msg => .ok msg
      | none => .error .structError
    | none => .error .typeError

/-- Python truthiness defaulting, the expression (timestamp or time.time()):
None and 0 are falsy and select the current wall-clock reading, any other
number is kept. -/
def pyOrTime (timestamp : Option ℚ) (now : ℚ) : ℚ :=
  match timestamp with
  | none => now
  | some t => if t = 0 then now else t

/-- Python int() on a number: truncation toward zero. -/
def pyInt (q : ℚ) : Int :=
  if 0 ≤ q then ⌊q⌋ else ⌈q⌉

/-- AIOGraphite._send_message (lines 222-228): self.writer.write(message)
then drain.  With self.writer unset the attribute lookup raises
AttributeError; with self.writer = None the method lookup on None raises
AttributeError; with a stream writer the bytes go to the transport: exactly
one network write. -/
def send_message (st : Session) (message : List Nat) : PyResult :=
  match st.writerAttr with
  | .conn _ => .ok { st with written := st.written ++ [message] }
  | _ => .err .attributeError st

/-- A dataset entry of send_valid_metric_list: (metric, value) or
(metric, value, timestamp). -/
inductive Datum where
  | two (metric : String) (value : Int)
  | three (metric : String) (value : Int) (timestamp : Int)
deriving DecidableEq

/-- AIOGraphite._generate_message_for_data_list (lines 232-251), faithful to
the source text: the loop appends to listOfData, a name that is never bound
(the initialized accumulator is spelled listofData), so the first iteration
raises NameError before formate_function is even called; with an empty
dataset the loop body never runs and generate_message_function is applied to
the empty accumulator listofData. -/
def generate_message_for_data_list (p : Protocol) (dataset : List Datum)
    (timestamp : Int) : Except PyError (List Nat) :=
  match dataset with
  | [] => protoGenerate p []
  | _ :: _ => .error .nameError

/-- The loop of _generate_message_for_data_list read with listOfData and
listofData as one variable (the spelling slip repaired; spec 9 discusses
this behavior): a 2-tuple datum is formatted with the current timestamp
variable, while a 3-tuple datum first overwrites that variable with its own
timestamp (line 248), which then persists for the following 2-tuple data. -/
def data_list_units_typo_merged (p : Protocol) (dataset : List Datum)
    (timestamp : Int) : List EncodedUnit :=
  match dataset with
  | [] => []
  | .two metric value :: rest =>
    protoFormat p metric value timestamp
      :: data_list_units_typo_merged p rest timestamp
  | .three metric value dataTimestamp :: rest =>
    protoFormat p metric value dataTimestamp
      :: data_list_units_typo_merged p rest dataTimestamp

/-- AIOGraphite.send_single_valid_metric (lines 130-144): timestamp =
int(timestamp or time.time()); format one unit; generate the message; await
self._send_message(message). -/
def send_single_valid_metric (st : Session) (metric : String) (value : Int)
    (timestamp : Option ℚ) (now : ℚ) : PyResult :=
  let ts := pyInt (pyOrTime timestamp now)
  let listOfMetricTuples := [protoFormat st.protocol metric value ts]
  match protoGenerate st.protocol listOfMetricTuples with
  | .ok message => send_message st message
  | .error e => .err e st

/-- AIOGraphite.send_valid_metric_list (lines 148-163): timestamp =
int(timestamp or time.time()); message =
self._generate_message_for_data_list(...); await self._send_message. -/
def send_valid_metric_list (st : Session) (dataset : List Datum)
    (timestamp : Option ℚ) (now : ℚ) : PyResult :=
  let ts := pyInt (pyOrTime timestamp now)
  match generate_message_for_data_list st.protocol dataset ts with
  | .ok message => send_message st message
  | .error e => .err e st

/-- AIOGraphite.send_single_metric (lines 79-98): sanitize the path, then
call self.send_single_valid_metric(...) without await: the coroutine is
created and dropped, so nothing is sent and the method returns normally. -/
def send_single_metric (st : Session) (metric_dir_list : List String)
    (value : Int) (timestamp : Option ℚ) : PyResult :=
  let _valid_metric_name := to_graphite_valid_metric_name metric_dir_list
  .ok st

/-- A dataset entry of send_metric_list: (metric_dir_list, value) or
(metric_dir_list, value, timestamp). -/
inductive RawDatum where
  | two (path : List String) (value : Int)
  | three (path : List String) (value : Int) (timestamp : Int)
deriving DecidableEq

/-- The list comprehension of line 121: every entry must unpack as a
2-tuple, otherwise the unpacking raises ValueError. -/
def validateTwo : List RawDatum → Except PyError (List Datum)
  | [] => .ok []
  | .two p v :: rest =>
    match validateTwo rest with
    | .ok r => .ok (.two (to_graphite_valid_metric_name p) v :: r)
    | .error e => .error e
  | .three _ _ _ :: _ => .error .valueError

/-- The list comprehension of line 123: every entry must unpack as a
3-tuple (the comprehension's timestamp variable shadows the parameter),
otherwise ValueError. -/
def validateThree : List RawDatum → Except PyError (List Datum)
  | [] => .ok []
  | .three p v t :: rest =>
    match validateThree rest with
    | .ok r => .ok (.three (to_graphite_valid_metric_name p) v t :: r)
    | .error e => .error e
  | .two _ _ :: _ => .error .valueError

/-- AIOGraphite.send_metric_list (lines 102-125): an empty (falsy) dataset
returns at once; otherwise the valid dataset is built eagerly by the
comprehension chosen on the first entry's arity (ValueError on mixed
arities), and self.send_valid_metric_list(...) is then called without await,
so nothing is sent. -/
def send_metric_list (st : Session) (dataset : List RawDatum)
    (timestamp : Option ℚ) : PyResult :=
  match dataset with
  | [] => .ok st
  | .two _ _ :: _ =>
    match validateTwo dataset with
    | .ok _ => .ok st
    | .error e => .err e st
  | .three _ _ _ :: _ =>
    match validateThree dataset with
    | .ok _ => .ok st
    | .error e => .err e st

/-- AIOGraphite.send_valid_metric_dict (lines 167-179): takes the mapping's
items in insertion order but calls self.send_valid_metric_list(...) without
await, so nothing is sent and the method returns normally. -/
def send_valid_metric_dict (st : Session) (dataset : List (String × Int))
    (timestamp : Option ℚ) : PyResult :=
  .ok st

/-- The try body of disconnect: self.writer.close(); AttributeError when the
attribute is unset or holds None. -/
def writer_close (st : Session) : PyResult :=
  match st.writerAttr with
  | .conn _ => .ok { st with writerAttr := .conn true }
  | _ => .err .attributeError st

/-- AIOGraphite.disconnect (lines 183-195): try self.writer.close(); the
except AttributeError, except Exception and finally arms each end with
self.writer = None, so every path returns normally with the writer cleared. -/
def disconnect (st : Session) : PyResult :=
  match writer_close st with
  | .ok st1 => .ok { st1 with writerAttr := .pyNone }
  | .err _ st1 => .ok { st1 with writerAttr := .pyNone }

theorem protoGenerate_error_ne (p : Protocol) (units : List EncodedUnit)
    (e : PyError) (h : protoGenerate p units = .error e) :
    e ≠ PyError.notConnectedError := by
  unfold protoGenerate at h
  cases p
  · dsimp only at h
    cases hu : unitsToLines units with
    | none =>
      rw [hu] at h
      dsimp only at h
      obtain rfl : e = PyError.typeError := (Except.error.inj h).symm
      simp
    | some lines =>
      rw [hu] at h
      dsimp only at h
      cases hm : plaintext_generate_message_function lines with
      | none =>
        rw [hm] at h
        dsimp only at h
        obtain rfl : e = PyError.unicodeEncodeError := (Except.error.inj h).symm
        simp
      | some msg =>
        rw [hm] at h
        dsimp only at h
        simp at h
  · dsimp only at h
    cases hu : unitsToTuples units with
    | none =>
      rw [hu] at h
      dsimp only at h
      obtain rfl : e = PyError.typeError := (Except.error.inj h).symm
      simp
    | some tuples =>
      rw [hu] at h
      dsimp only at h
      cases hm : pickle_generate_message_function tuples with
      | none =>
        rw [hm] at h
        dsimp only at h
        obtain rfl : e = PyError.structError := (Except.error.inj h).symm
        simp
      | some msg =>
        rw [hm] at h
        dsimp only at h
        simp at h

/-- C9: disconnect is idempotent and never raises: every call returns
normally with the writer cleared to None and the write log untouched, and an
immediate second call returns normally again with the same state; this
covers in particular a session that is already closed or was never
connected. -/
theorem disconnect_idempotent (st : Session) :
    disconnect st = PyResult.ok { st with writerAttr := .pyNone }
    ∧ disconnect { st with writerAttr := .pyNone }
      = PyResult.ok { st with writerAttr := .pyNone } := by
  obtain ⟨w, p, lg⟩ := st
  cases w <;> exact ⟨rfl, rfl⟩

/-- C4 (code evaluation at the failing input): on the mixed dataset
[("a",1,50), ("b",2)] with call-level default timestamp 100,
_generate_message_for_data_list raises NameError (the listOfData spelling
slip), so the omitted-timestamp entry never receives the shared per-call
default; and even with the slip repaired, entry "b" is formatted with
timestamp 50 inherited from the preceding 3-tuple, not with the call
default 100. -/
theorem mixed_timestamp_default_bug :
    generate_message_for_data_list .pickle
        [.three "a" 1 50, .two "b" 2] 100 = .error .nameError
    ∧ data_list_units_typo_merged .pickle
        [.three "a" 1 50, .two "b" 2] 100
      = [.tup ("a", (50, 1)), .tup ("b", (50, 2))] :=
  ⟨rfl, rfl⟩

/-- C6 (code evaluation at the failing input): on a connected session the
wrappers send_valid_metric_dict, send_single_metric and send_metric_list
perform zero network writes (their inner coroutines are never awaited) and
send_valid_metric_list raises NameError with zero writes; only
send_single_valid_metric performs the single write the claim demands of
every operation. -/
theorem send_exactly_one_write_bug :
    (send_valid_metric_dict ⟨.conn false, .pickle, []⟩ [("a", 1)] none
      = .ok ⟨.conn false, .pickle, []⟩)
    ∧ (send_single_metric ⟨.conn false, .pickle, []⟩ ["a"] 1 none
      = .ok ⟨.conn false, .pickle, []⟩)
    ∧ (send_metric_list ⟨.conn false, .pickle, []⟩ [.two ["a"] 1] none
      = .ok ⟨.conn false, .pickle, []⟩)
    ∧ (send_valid_metric_list ⟨.conn false, .pickle, []⟩ [.two "a" 1] none 100
      = .err .nameError ⟨.conn false, .pickle, []⟩)
    ∧ (send_single_valid_metric ⟨.conn false, .pickle, []⟩ "a" 1 none 100
      = .ok ⟨.conn false, .pickle,
          [(pickle_generate_message_function [("a", (100, 1))]).getD []]⟩) :=
  ⟨rfl, rfl, rfl, rfl, rfl⟩

theorem validateTwo_error (ds : List RawDatum) (e : PyError)
    (h : validateTwo ds = .error e) : e = PyError.valueError := by
  induction ds with
  | nil => simp [validateTwo] at h
  | cons d rest ih =>
    cases d with
    | two p v =>
      simp only [validateTwo] at h
      cases hr : validateTwo rest with
      | ok r => rw [hr] at h; simp at h
      | error e2 =>
        rw [hr] at h
        dsimp only at h
        have he : e2 = e := Except.error.inj h
        subst he
        exact ih hr
    | three p v t =>
      exact (Except.error.inj h).symm

theorem validateThree_error (ds : List RawDatum) (e : PyError)
    (h : validateThree ds = .error e) : e = PyError.valueError := by
  induction ds with
  | nil => simp [validateThree] at h
  | cons d rest ih =>
    cases d with
    | three p v t =>
      simp only [validateThree] at h
      cases hr : validateThree rest with
      | ok r => rw [hr] at h; simp at h
      | error e2 =>
        rw [hr] at h
        dsimp only at h
        have he : e2 = e := Except.error.inj h
        subst he
        exact ih hr
    | two p v =>
      exact (Except.error.inj h).symm

/-- Counterexample to C5: on a freshly constructed session,
send_valid_metric_list (the sendBatch entry point over ready identifiers)
applied to the empty sample sequence does not return successfully: it
encodes an empty batch and attempts the network send, which raises
AttributeError because the connection coroutine never ran. -/
theorem sendBatch_empty_counterexample :
    send_valid_metric_list (AIOGraphite_init .pickle) [] none 100
      = .err .attributeError (AIOGraphite_init .pickle) := rfl

/-- C5 corrected: only the raw-path entry point send_metric_list
short-circuits the empty batch with zero network writes and a normal
return; send_valid_metric_list has no such guard: it encodes the empty
batch and attempts one network send, which on a connected session writes
the empty-batch message and on an unconnected one raises AttributeError. -/
theorem sendBatch_empty_amended (st : Session) (timestamp : Option ℚ) (now : ℚ) :
    (send_metric_list st [] timestamp = .ok st)
    ∧ (st.writerAttr = .unset ∨ st.writerAttr = .pyNone →
        send_valid_metric_list st [] timestamp now = .err .attributeError st)
    ∧ (∀ c, st.writerAttr = .conn c →
        ∃ msg, protoGenerate st.protocol [] = .ok msg ∧
          send_valid_metric_list st [] timestamp now
            = .ok { st with written := st.written ++ [msg] }) := by
  obtain ⟨w, p, lg⟩ := st
  refine ⟨rfl, ?_, ?_⟩
  · intro h
    rcases h with h | h <;>
      · simp only at h
        subst h
        cases p <;> rfl
  · intro c h
    simp only at h
    subst h
    cases p
    · exact ⟨_, rfl, rfl⟩
    · exact ⟨_, rfl, rfl⟩

/-- Witness for the amended C5 at a concrete input. -/
theorem sendBatch_empty_amended_witness :
    send_metric_list (AIOGraphite_init .pickle) [] none
        = .ok (AIOGraphite_init .pickle)
    ∧ send_valid_metric_list (AIOGraphite_init .pickle) [] none 100
        = .err .attributeError (AIOGraphite_init .pickle) := by
  have h := sendBatch_empty_amended (AIOGraphite_init .pickle) none 100
  exact ⟨h.1, h.2.1 (Or.inl rfl)⟩

/-- Counterexample to C7: a send on the freshly constructed, never-connected
session fails with AttributeError, which is not the NotConnectedError the
claim names (and which no code in the repository defines). -/
theorem send_not_connected_counterexample :
    send_single_valid_metric (AIOGraphite_init .pickle) "a" 1 none 100
      = .err .attributeError (AIOGraphite_init .pickle)
    ∧ PyError.attributeError ≠ PyError.notConnectedError :=
  ⟨rfl, by simp⟩

/-- C7 corrected: with no established connection (writer unset as after
construction, or None as after disconnect) no send operation performs a
network write; the direct send methods raise AttributeError on the missing
writer, NameError from the accumulator slip, or an encoding error, never a
NotConnectedError, while the wrapper methods return normally without
sending (their inner coroutines are never awaited) or raise ValueError on
mixed-arity input. -/
theorem send_not_connected_amended (st : Session)
    (hw : st.writerAttr = .unset ∨ st.writerAttr = .pyNone) :
    (∀ path value timestamp,
      send_single_metric st path value timestamp = .ok st)
    ∧ (∀ metric value timestamp now, ∃ e, e ≠ PyError.notConnectedError ∧
      send_single_valid_metric st metric value timestamp now = .err e st)
    ∧ (∀ dataset timestamp now,
      send_valid_metric_list st dataset timestamp now
        = .err (if dataset = [] then .attributeError else .nameError) st)
    ∧ (∀ dataset timestamp,
      send_metric_list st dataset timestamp = .ok st
        ∨ send_metric_list st dataset timestamp = .err .valueError st)
    ∧ (∀ dataset timestamp,
      send_valid_metric_dict st dataset timestamp = .ok st) := by
  have hsend : ∀ msg, send_message st msg = .err .attributeError st := by
    intro msg
    unfold send_message
    rcases hw with h | h <;> rw [h]
  refine ⟨fun _ _ _ => rfl, ?_, ?_, ?_, fun _ _ => rfl⟩
  · intro metric value timestamp now
    unfold send_single_valid_metric
    dsimp only
    cases hg : protoGenerate st.protocol
        [protoFormat st.protocol metric value (pyInt (pyOrTime timestamp now))] with
    | ok msg =>
      refine ⟨.attributeError, by simp, ?_⟩
      simp only [hg]
      exact hsend msg
    | error e =>
      refine ⟨e, protoGenerate_error_ne _ _ _ hg, ?_⟩
      simp only [hg]
  · intro dataset timestamp now
    cases dataset with
    | nil =>
      unfold send_valid_metric_list generate_message_for_data_list
      dsimp only
      rw [if_pos rfl]
      cases hg : protoGenerate st.protocol [] with
      | ok msg =>
        simp only [hg]
        exact hsend msg
      | error e =>
        exfalso
        obtain ⟨w, p, lg⟩ := st
        cases p
        · simp [protoGenerate, unitsToLines, unitsToTuples,
            plaintext_generate_message_function, pyJoin, asciiEncode] at hg
        · dsimp only at hg
          simp only [protoGenerate, unitsToTuples] at hg
          rw [show pickle_generate_message_function []
              = some ((pickle_generate_message_function []).getD []) from rfl] at hg
          simp at hg
    | cons d rest =>
      rw [if_neg (by simp)]
      rfl
  · intro dataset timestamp
    cases dataset with
    | nil => exact Or.inl rfl
    | cons d rest =>
      unfold send_metric_list
      cases d with
      | two p v =>
        dsimp only
        cases hv : validateTwo (RawDatum.two p v :: rest) with
        | ok r =>
          simp only [hv]
          exact Or.inl trivial
        | error e =>
          have he := validateTwo_error _ _ hv
          subst he
          simp only [hv]
          exact Or.inr trivial
      | three p v t =>
        dsimp only
        cases hv : validateThree (RawDatum.three p v t :: rest) with
        | ok r =>
          simp only [hv]
          exact Or.inl trivial
        | error e =>
          have he := validateThree_error _ _ hv
          subst he
          simp only [hv]
          exact Or.inr trivial

/-- Witness for the amended C7 at a concrete input. -/
theorem send_not_connected_amended_witness :
    send_single_metric (AIOGraphite_init .pickle) ["a"] 1 none
        = .ok (AIOGraphite_init .pickle)
    ∧ send_valid_metric_dict (AIOGraphite_init .pickle) [("a", 1)] none
        = .ok (AIOGraphite_init .pickle) := by
  have h := send_not_connected_amended (AIOGraphite_init .pickle) (Or.inl rfl)
  exact ⟨h.1 ["a"] 1 none, h.2.2.2.2 [("a", 1)] none⟩

/-- C10: in send_single_valid_metric and send_valid_metric_list the
expression int(timestamp or time.time()) makes an explicit timestamp of 0
behave exactly like an omitted one (both falsy, both replaced by the
current wall-clock reading), while any non-zero explicit timestamp is kept
independently of the clock and only its truncation toward zero reaches the
encoder; a non-zero integer-valued timestamp is encoded unchanged. -/
theorem timestamp_zero_and_truncation :
    (∀ st metric value now,
      send_single_valid_metric st metric value (some 0) now
        = send_single_valid_metric st metric value none now)
    ∧ (∀ st dataset now,
      send_valid_metric_list st dataset (some 0) now
        = send_valid_metric_list st dataset none now)
    ∧ (∀ (q : ℚ) st metric value now now', q ≠ 0 →
      send_single_valid_metric st metric value (some q) now
        = send_single_valid_metric st metric value (some q) now')
    ∧ (∀ (q q' : ℚ) st metric value now, q ≠ 0 → q' ≠ 0 → pyInt q = pyInt q' →
      send_single_valid_metric st metric value (some q) now
        = send_single_valid_metric st metric value (some q') now)
    ∧ (∀ z : Int, pyInt ((z : ℚ)) = z) := by
  refine ⟨?_, ?_, ?_, ?_, ?_⟩
  · intro st metric value now
    unfold send_single_valid_metric pyOrTime
    dsimp only
    rw [if_pos rfl]
  · intro st dataset now
    unfold send_valid_metric_list pyOrTime
    dsimp only
    rw [if_pos rfl]
  · intro q st metric value now now' hq
    unfold send_single_valid_metric pyOrTime
    dsimp only
    rw [if_neg hq, if_neg hq]
  · intro q q' st metric value now hq hq' heq
    unfold send_single_valid_metric pyOrTime
    dsimp only
    rw [if_neg hq, if_neg hq', heq]
  · intro z
    unfold pyInt
    by_cases hz : (0 : ℚ) ≤ (z : ℚ)
    · rw [if_pos hz, Int.floor_intCast]
    · rw [if_neg hz, Int.ceil_intCast]

/-- Witness for C10 at concrete inputs. -/
theorem timestamp_zero_and_truncation_witness :
    send_single_valid_metric (AIOGraphite_init .pickle) "a" 1 (some (3 / 2)) 7
      = send_single_valid_metric (AIOGraphite_init .pickle) "a" 1 (some (5 / 4)) 7 :=
  timestamp_zero_and_truncation.2.2.2.1 (3 / 2) (5 / 4)
    (AIOGraphite_init .pickle) "a" 1 7 (by norm_num) (by norm_num) (by
      unfold pyInt
      rw [if_pos (by norm_num), if_pos (by norm_num)]
      have h1 : ⌊(3 / 2 : ℚ)⌋ = 1 := by
        rw [Int.floor_eq_iff]
        constructor <;> norm_num
      have h2 : ⌊(5 / 4 : ℚ)⌋ = 1 := by
        rw [Int.floor_eq_iff]
        constructor <;> norm_num
      rw [h1, h2])
